import Mathlib

/-!
Verification development for `tutorial_metadata.py`.

The program scans text files for a leading comment block holding tutorial
metadata (a "Tutorial ..." heading plus "KWords: ..." keyword lines), merges
the fragments found across files into one canonical heading and a sorted,
deduplicated keyword list, and prints the merged result.

This file gives a shallow embedding of the program: Python strings become
`String`/`List Char`, the regular expressions used by the program are encoded
as explicit deterministic matchers with the same match semantics on their
anchored patterns, the Python `set` of keywords becomes a duplicate-free
`List String`, file handles become `List String` of raw lines, and the
process's stdout/stderr/exit status become an explicit `RunOut` record.
-/

set_option maxRecDepth 4096

namespace TutMeta

/-! ### Python character and string primitives -/

/-- Python regex `\s` over 8-bit strings: space, tab, newline, carriage
return, vertical tab, form feed. -/
def pyIsSpace (c : Char) : Bool :=
  c = ' ' || c = '\t' || c = '\n' || c = '\r' || c = Char.ofNat 11 || c = Char.ofNat 12

/-- ASCII lower-casing of one character, as Python 2 `str.lower` does. -/
def asciiLower : Char → Char
  | 'A' => 'a' | 'B' => 'b' | 'C' => 'c' | 'D' => 'd' | 'E' => 'e' | 'F' => 'f'
  | 'G' => 'g' | 'H' => 'h' | 'I' => 'i' | 'J' => 'j' | 'K' => 'k' | 'L' => 'l'
  | 'M' => 'm' | 'N' => 'n' | 'O' => 'o' | 'P' => 'p' | 'Q' => 'q' | 'R' => 'r'
  | 'S' => 's' | 'T' => 't' | 'U' => 'u' | 'V' => 'v' | 'W' => 'w' | 'X' => 'x'
  | 'Y' => 'y' | 'Z' => 'z' | c => c

/-- ASCII upper-casing of one character, as Python 2 `str.upper` does. -/
def asciiUpper : Char → Char
  | 'a' => 'A' | 'b' => 'B' | 'c' => 'C' | 'd' => 'D' | 'e' => 'E' | 'f' => 'F'
  | 'g' => 'G' | 'h' => 'H' | 'i' => 'I' | 'j' => 'J' | 'k' => 'K' | 'l' => 'L'
  | 'm' => 'M' | 'n' => 'N' | 'o' => 'O' | 'p' => 'P' | 'q' => 'Q' | 'r' => 'R'
  | 's' => 'S' | 't' => 'T' | 'u' => 'U' | 'v' => 'V' | 'w' => 'W' | 'x' => 'X'
  | 'y' => 'Y' | 'z' => 'Z' | c => c

/-- Python `str.lower`. -/
def strLower (s : String) : String := ⟨s.data.map asciiLower⟩

/-- Python `str.rstrip()` on the character list. -/
def pyRstripChars (l : List Char) : List Char := l.rdropWhile pyIsSpace

/-- Python `str.rstrip()`. -/
def pyRstrip (s : String) : String := ⟨pyRstripChars s.data⟩

/-- Python `str.strip()` on the character list. -/
def pyStripChars (l : List Char) : List Char :=
  (l.dropWhile pyIsSpace).rdropWhile pyIsSpace

/-- One pass of Python `re.sub("\s+", " ", _)`: every maximal run of
whitespace becomes a single space.  The Boolean flag records whether the
previous character was whitespace, so a run beyond its first character is
dropped. -/
def collapseAux : Bool → List Char → List Char
  | _, [] => []
  | prevWs, c :: r =>
    if pyIsSpace c then
      if prevWs then collapseAux true r else ' ' :: collapseAux true r
    else c :: collapseAux false r

/-- `normalise_text` of the source on character lists: strip, then collapse
interior whitespace runs to single spaces. -/
def normaliseChars (l : List Char) : List Char := collapseAux false (pyStripChars l)

/-- `normalise_text(string)`: returns a copy of the string rid of redundant
whitespace; leading and trailing whitespace removed too. -/
def normalise_text (s : String) : String := ⟨normaliseChars s.data⟩

/-- `tail_after(string, head)`: the part of the string just after its first
`head.length` characters (in the program, `head` is always a prefix found by
a regex match, so the slice drops exactly that match). -/
def tail_after (s h : String) : String := ⟨s.data.drop h.data.length⟩

/-- Python `str.capitalize`: first character upper-cased, the rest
lower-cased. -/
def pyCapitalize (s : String) : String :=
  match s.data with
  | [] => ""
  | c :: r => ⟨asciiUpper c :: r.map asciiLower⟩

/-- Python `haystack.find(needle) == 0`, i.e. `needle` occurs at index 0. -/
def findsAtZero (hay needle : String) : Bool := needle.data.isPrefixOf hay.data

/-- The splitting part of `re.split(",\s*", s)`: cut at every comma and
swallow the whitespace run right after it.  The Boolean flag is true while
the whitespace run following a comma is being swallowed; the accumulator
holds the current part reversed. -/
def splitCommaAux : Bool → List Char → List Char → List (List Char)
  | _, acc, [] => [acc.reverse]
  | skip, acc, c :: r =>
    if skip && pyIsSpace c then splitCommaAux true acc r
    else if c = ',' then acc.reverse :: splitCommaAux true [] r
    else splitCommaAux false (c :: acc) r

/-- `split_on_commas(string)`: split on `,\s*`, remove raw empty terms, then
normalise each remaining term's whitespace. -/
def split_on_commas (s : String) : List String :=
  ((splitCommaAux false [] s.data).filter (· ≠ [])).map
    (fun t => (⟨normaliseChars t⟩ : String))

/-! ### Byte-wise string order (Python 2 `sorted` on ASCII strings) -/

/-- Lexicographic comparison of character lists by code point, the order
Python 2 uses on its byte strings. -/
def strLeChars : List Char → List Char → Bool
  | [], _ => true
  | _ :: _, [] => false
  | a :: as, b :: bs =>
    if a.toNat < b.toNat then true
    else if b.toNat < a.toNat then false
    else strLeChars as bs

/-- The order relation induced by `strLeChars` on strings. -/
def strLeRel (a b : String) : Prop := strLeChars a.data b.data = true

instance : DecidableRel strLeRel := fun a b => by
  unfold strLeRel; infer_instance

theorem char_eq_of_toNat_eq {a b : Char} (h : a.toNat = b.toNat) : a = b :=
  Char.ext (UInt32.ext h)

theorem strLeChars_total : ∀ a b, strLeChars a b = true ∨ strLeChars b a = true
  | [], _ => Or.inl rfl
  | _ :: _, [] => Or.inr rfl
  | a :: as, b :: bs => by
    simp only [strLeChars]
    rcases Nat.lt_trichotomy a.toNat b.toNat with h | h | h
    · left; simp [h]
    · have hne : ¬ a.toNat < b.toNat := by omega
      have hne' : ¬ b.toNat < a.toNat := by omega
      rcases strLeChars_total as bs with ih | ih <;> simp [hne, hne', ih]
    · right; simp [h]

theorem strLeChars_trans :
    ∀ a b c, strLeChars a b = true → strLeChars b c = true → strLeChars a c = true
  | [], _, _, _, _ => rfl
  | _ :: _, [], _, h, _ => by simp [strLeChars] at h
  | _ :: _, _ :: _, [], _, h => by simp [strLeChars] at h
  | a :: as, b :: bs, c :: cs, h1, h2 => by
    rcases Nat.lt_trichotomy a.toNat b.toNat with hab | hab | hab
    · rcases Nat.lt_trichotomy b.toNat c.toNat with hbc | hbc | hbc
      · simp [strLeChars, hab.trans hbc]
      · simp [strLeChars, hbc ▸ hab]
      · exfalso
        simp [strLeChars, Nat.lt_asymm hbc, hbc] at h2
    · have hab1 : ¬ a.toNat < b.toNat := by omega
      have hab2 : ¬ b.toNat < a.toNat := by omega
      rw [strLeChars, if_neg hab1, if_neg hab2] at h1
      rcases Nat.lt_trichotomy b.toNat c.toNat with hbc | hbc | hbc
      · simp [strLeChars, show a.toNat < c.toNat by omega]
      · rw [strLeChars, if_neg (show ¬ b.toNat < c.toNat by omega),
          if_neg (show ¬ c.toNat < b.toNat by omega)] at h2
        rw [strLeChars, if_neg (show ¬ a.toNat < c.toNat by omega),
          if_neg (show ¬ c.toNat < a.toNat by omega)]
        exact strLeChars_trans as bs cs h1 h2
      · exfalso
        simp [strLeChars, Nat.lt_asymm hbc, hbc] at h2
    · exfalso
      simp [strLeChars, Nat.lt_asymm hab, hab] at h1

theorem strLeChars_antisymm :
    ∀ a b, strLeChars a b = true → strLeChars b a = true → a = b
  | [], [], _, _ => rfl
  | [], _ :: _, _, h2 => by simp [strLeChars] at h2
  | _ :: _, [], h1, _ => by simp [strLeChars] at h1
  | a :: as, b :: bs, h1, h2 => by
    rcases Nat.lt_trichotomy a.toNat b.toNat with hab | hab | hab
    · exfalso
      simp [strLeChars, Nat.lt_asymm hab, hab] at h2
    · have hab1 : ¬ a.toNat < b.toNat := by omega
      have hab2 : ¬ b.toNat < a.toNat := by omega
      rw [strLeChars, if_neg hab1, if_neg hab2] at h1
      rw [strLeChars, if_neg hab2, if_neg hab1] at h2
      rw [char_eq_of_toNat_eq hab, strLeChars_antisymm as bs h1 h2]
    · exfalso
      simp [strLeChars, Nat.lt_asymm hab, hab] at h1

instance : IsTotal String strLeRel := ⟨fun a b => strLeChars_total a.data b.data⟩

instance : IsTrans String strLeRel :=
  ⟨fun a b c h1 h2 => strLeChars_trans a.data b.data c.data h1 h2⟩

instance : IsAntisymm String strLeRel :=
  ⟨fun a b h1 h2 => by
    cases a; cases b
    exact congrArg String.mk (strLeChars_antisymm _ _ h1 h2)⟩

/-- `__keywordsToString`: the comma-separated, ascending rendering of the
keyword set (Python `", ".join(sorted(values_of_set(s)))`). -/
def keywordsToString (s : List String) : String :=
  String.intercalate ", " (List.insertionSort strLeRel s)

/-! ### The comment-mark matchers (the program's compiled regexes) -/

/-- Outcome of `is_comment`, Python's
`re.compile("^\s*(#+|/\*|//|--|\(\*|;+)\s*").match`: `full` is `group()`
(leading whitespace, mark, trailing whitespace) and `mark` is `group(1)`. -/
structure OpenMatch where
  full : List Char
  mark : List Char
deriving DecidableEq

/-- `is_comment(line)`: match one of the six comment-opening patterns at the
start of the line, whitespace allowed around the mark.  The regex
alternation is deterministic here because each alternative is identified by
its first one or two non-whitespace characters, and `#+`/`;+` are greedy. -/
def is_comment (line : String) : Option OpenMatch :=
  let cs := line.data
  let w1 := cs.takeWhile pyIsSpace
  let r := cs.dropWhile pyIsSpace
  match r with
  | '#' :: _ =>
    let ms := r.takeWhile (· = '#')
    some ⟨w1 ++ ms ++ (r.dropWhile (· = '#')).takeWhile pyIsSpace, ms⟩
  | '/' :: '*' :: r2 => some ⟨w1 ++ ['/', '*'] ++ r2.takeWhile pyIsSpace, ['/', '*']⟩
  | '/' :: '/' :: r2 => some ⟨w1 ++ ['/', '/'] ++ r2.takeWhile pyIsSpace, ['/', '/']⟩
  | '-' :: '-' :: r2 => some ⟨w1 ++ ['-', '-'] ++ r2.takeWhile pyIsSpace, ['-', '-']⟩
  | '(' :: '*' :: r2 => some ⟨w1 ++ ['(', '*'] ++ r2.takeWhile pyIsSpace, ['(', '*']⟩
  | ';' :: _ =>
    let ms := r.takeWhile (· = ';')
    some ⟨w1 ++ ms ++ (r.dropWhile (· = ';')).takeWhile pyIsSpace, ms⟩
  | _ => none

/-- The test, used by `secondary_comment_matcher` and
`define_comment_border_regex`, that picks the single-character comment-mark
families: `mark[0] in "#;"` or `mark[:2] in ("--", "//")`. -/
def singleMarkFam (mark : List Char) : Bool :=
  mark.head? = some '#' || mark.head? = some ';' ||
    mark.take 2 = ['-', '-'] || mark.take 2 = ['/', '/']

/-- `secondary_comment_matcher(mark)(line)`: the continuation-line matcher.
For single-character families it is `^\s*MARK\s*` with the literal opening
mark; for `/*` it is `^\s*(/\*|\*+)\s*`; for `(*` it is `^\s*(\(\*|\*+)\s*`.
Returns `group()` of the match (the whole matched prefix). -/
def secondary_comment_matcher (mark : List Char) (line : List Char) :
    Option (List Char) :=
  if singleMarkFam mark then
    let w1 := line.takeWhile pyIsSpace
    let r := line.dropWhile pyIsSpace
    if mark.isPrefixOf r then
      some (w1 ++ mark ++ (r.drop mark.length).takeWhile pyIsSpace)
    else none
  else if mark.take 2 = ['/', '*'] then
    let w1 := line.takeWhile pyIsSpace
    let r := line.dropWhile pyIsSpace
    match r with
    | '/' :: '*' :: r2 => some (w1 ++ ['/', '*'] ++ r2.takeWhile pyIsSpace)
    | '*' :: _ =>
      some (w1 ++ r.takeWhile (· = '*') ++
        (r.dropWhile (· = '*')).takeWhile pyIsSpace)
    | _ => none
  else if mark.take 2 = ['(', '*'] then
    let w1 := line.takeWhile pyIsSpace
    let r := line.dropWhile pyIsSpace
    match r with
    | '(' :: '*' :: r2 => some (w1 ++ ['(', '*'] ++ r2.takeWhile pyIsSpace)
    | '*' :: _ =>
      some (w1 ++ r.takeWhile (· = '*') ++
        (r.dropWhile (· = '*')).takeWhile pyIsSpace)
    | _ => none
  else none

/-- Whether `cs` belongs, as a whole, to the language of the "right border"
regex of `define_comment_border_regex(mark)`: `\s*MARK\s*$` for
single-character families, `\s*\*+/?\s*$` for `/*`, `\s*\*+\)?\s*$` for
`(*`. -/
def borderMatches (mark : List Char) (cs : List Char) : Bool :=
  if singleMarkFam mark then
    let r := cs.dropWhile pyIsSpace
    mark.isPrefixOf r && ((r.drop mark.length).dropWhile pyIsSpace).isEmpty
  else if mark.take 2 = ['/', '*'] then
    let r := cs.dropWhile pyIsSpace
    let stars := r.takeWhile (· = '*')
    let r2 := r.dropWhile (· = '*')
    let r3 := if r2.head? = some '/' then r2.tail else r2
    !stars.isEmpty && (r3.dropWhile pyIsSpace).isEmpty
  else if mark.take 2 = ['(', '*'] then
    let r := cs.dropWhile pyIsSpace
    let stars := r.takeWhile (· = '*')
    let r2 := r.dropWhile (· = '*')
    let r3 := if r2.head? = some ')' then r2.tail else r2
    !stars.isEmpty && (r3.dropWhile pyIsSpace).isEmpty
  else false

/-- `re.sub(borderRE, "", cs)` for the end-anchored border regex: remove the
suffix starting at the leftmost position whose suffix matches the border
pattern (the pattern never matches the empty string, and a match must reach
the end of the string, so at most one substitution happens). -/
def borderSub (mark : List Char) : List Char → List Char
  | [] => []
  | c :: r => if borderMatches mark (c :: r) then [] else c :: borderSub mark r

/-- `__commentText`: drop the matched comment-mark prefix (`tail_after`),
erase a trailing border, strip surrounding whitespace.  The border argument
is the established opening mark; it is `none` only before any opening mark
was seen, a situation in which the program never calls this code. -/
def commentTextChars (line full : List Char) (border : Option (List Char)) :
    List Char :=
  let t := line.drop full.length
  let t2 :=
    match border with
    | some m => borderSub m t
    | none => t
  pyStripChars t2

/-- Case-insensitive match of `w` against the lower-case literal `pat`. -/
def lowersTo (w pat : List Char) : Bool := w.map asciiLower == pat

/-- `read_heading_prefix`, fused with `is_heading`
(`re.compile(r"^\s*Tutorial\s+", re.I).match`): the matched prefix
(`group()`), or `none`. -/
def read_heading_pfx (s : String) : Option String :=
  let cs := s.data
  let w1 := cs.takeWhile pyIsSpace
  let r := cs.dropWhile pyIsSpace
  let w := r.take 8
  if lowersTo w "tutorial".data then
    let w2 := (r.drop 8).takeWhile pyIsSpace
    if w2.isEmpty then none else some ⟨w1 ++ w ++ w2⟩
  else none

/-- `read_kwords_prefix`, fused with `is_kwords`
(`re.compile("^\s*KWords\s*:", re.I).match`): the matched prefix
(`group()`, colon included), or `none`. -/
def read_kwords_pfx (s : String) : Option String :=
  let cs := s.data
  let w1 := cs.takeWhile pyIsSpace
  let r := cs.dropWhile pyIsSpace
  let w := r.take 6
  if lowersTo w "kwords".data then
    let r2 := r.drop 6
    let w2 := r2.takeWhile pyIsSpace
    match r2.dropWhile pyIsSpace with
    | ':' :: _ => some ⟨w1 ++ w ++ w2 ++ [':']⟩
    | _ => none
  else none

/-! ### The `Comment` record -/

/-- The `Comment` object: one line's processing outcome.  `current` is the
comment text; Python's `None` becomes `Option.none`. -/
structure Comment where
  lineNo : Nat
  current : Option String
  error : String
  warning : String
  heading : String
  keywords : String
deriving DecidableEq

/-- `Comment(lineNo, string)`: a fresh record with empty error, warning,
heading and keyword fields. -/
def Comment.init (lineNo : Nat) (s : String) : Comment :=
  ⟨lineNo, some s, "", "", "", ""⟩

/-- `Comment.addError` (via `__updateWarningOrError`, which stores the
message as given). -/
def Comment.addError (c : Comment) (m : String) : Comment := { c with error := m }

/-- `Comment.addWarning` (via `__updateWarningOrError`, which stores the
message as given). -/
def Comment.addWarning (c : Comment) (m : String) : Comment := { c with warning := m }

/-- `Comment.setCurrent`. -/
def Comment.setCurrent (c : Comment) (v : Option String) : Comment := { c with current := v }

/-- `Comment.setHeading`. -/
def Comment.setHeading (c : Comment) (h : String) : Comment := { c with heading := h }

/-- `Comment.setKeywords`. -/
def Comment.setKeywords (c : Comment) (k : String) : Comment := { c with keywords := k }

/-! ### `ProcessLine`: the line scanner -/

/-- The mutable state of a `ProcessLine` instance: current line number, the
established continuation mark (`__isSecondComment`, stored as the opening
mark it was built from) and the established border mark
(`__borderCommentRE`, likewise). -/
structure ScanState where
  lineNo : Nat
  isSecondComment : Option (List Char)
  borderCommentMark : Option (List Char)
deriving DecidableEq

/-- `ProcessLine(fp)`: fresh per-file scanner state. -/
def initScan : ScanState := ⟨0, none, none⟩

/-- `ProcessLine.__call__`: pull lines from the remaining raw lines of the
file until one `Comment` record can be returned.  Covers `__call__`,
`__getFirstComment` and `__getComment` of the source; the file handle
becomes the list of raw lines still unread. -/
def scanLine : ScanState → List String → Comment × ScanState × List String
  | st, [] =>
    let st' : ScanState := { st with lineNo := st.lineNo + 1 }
    (Comment.init st'.lineNo "", st', [])
  | st, l :: rest =>
    let st' : ScanState := { st with lineNo := st.lineNo + 1 }
    let line := pyRstrip l
    if line = "" then (Comment.init st'.lineNo "", st', rest)
    else
      match st'.isSecondComment with
      | none =>
        match is_comment line with
        | none => (Comment.init st'.lineNo "", st', rest)
        | some m =>
          if line.data.take 3 = ['#', '!', '/'] then scanLine st' rest
          else
            let st2 : ScanState := { st' with borderCommentMark := some m.mark }
            let text := commentTextChars line.data m.full st2.borderCommentMark
            if text = [] then scanLine st2 rest
            else
              let st3 : ScanState := { st2 with isSecondComment := some m.mark }
              (Comment.init st3.lineNo ⟨text⟩, st3, rest)
      | some mk2 =>
        match secondary_comment_matcher mk2 line.data with
        | none => (Comment.init st'.lineNo "", st', rest)
        | some full =>
          let text := commentTextChars line.data full st'.borderCommentMark
          if text = [] then scanLine st' rest
          else (Comment.init st'.lineNo ⟨text⟩, st', rest)

/-! ### `ProcessComment`: the metadata aggregator -/

/-- The aggregator's state, shared across the whole run. -/
structure AggState where
  heading : String
  headingLC : String
  keywordsSet : List String
  keywordsAllowed : Bool
deriving DecidableEq

/-- `ProcessComment()`: empty heading, empty keyword set, keywords not yet
allowed. -/
def initAgg : AggState := ⟨"", "", [], false⟩

/-- `__tutorialHeading`: capitalized, normalised matched prefix, a space,
then the normalised rest of the line. -/
def tutorialHeading (headingPfx commentLine : String) : String :=
  pyCapitalize (normalise_text headingPfx) ++ " " ++
    normalise_text (tail_after commentLine headingPfx)

/-- `__tutorialKeywords`: the normalised rest of the line after the matched
`KWords:` prefix. -/
def tutorialKeywords (kwordsPfx commentLine : String) : String :=
  normalise_text (tail_after commentLine kwordsPfx)

/-- `__storeHeading`: store the normalised heading and its lower-cased
form. -/
def storeHeading (st : AggState) (h : String) : AggState :=
  let h' := normalise_text h
  { st with heading := h', headingLC := strLower h' }

/-- `__updateHeading`: the heading-reconciliation rule.  Comparisons are on
the lower-cased forms; `str.find(x) == 0` becomes `findsAtZero`. -/
def updateHeading (st : AggState) (newHeading : String) (c : Comment) :
    AggState × Comment :=
  if st.heading = "" then (storeHeading st newHeading, c.setCurrent none)
  else
    let nh := strLower newHeading
    if st.headingLC = nh then (st, c.setCurrent none)
    else if findsAtZero st.headingLC nh then
      (storeHeading st newHeading,
        (c.setCurrent none).addWarning
          ("will use newly found, shorter heading '" ++ newHeading ++ "'"))
    else if findsAtZero nh st.headingLC then (st, c.setCurrent none)
    else
      (st, c.addError ("heading '" ++ newHeading ++
        "' different from previous files' heading '" ++ st.heading ++ "'\n"))

/-- The loop body of `__updateKeywords`: insert every term of the split
keyword string into the keyword set (set semantics: inserting a member is a
no-op). -/
def kwAdd (s : List String) (keywords : String) : List String :=
  (split_on_commas keywords).foldl (fun t k => t.insert k) s

/-- `__updateKeywords`: extend the keyword set and mark the line consumed. -/
def updateKeywords (st : AggState) (keywords : String) (c : Comment) :
    AggState × Comment :=
  ({ st with keywordsSet := kwAdd st.keywordsSet keywords }, c.setCurrent none)

/-- `ProcessComment.__call__`: classify the comment line as heading, keyword
line, or terminator, and update the aggregate.  The `none` input case cannot
arise in program runs, because scanned records always carry text; it leaves
everything unchanged. -/
def processCommentFn (st : AggState) (c : Comment) : AggState × Comment :=
  match c.current with
  | none => (st, c)
  | some cur =>
    match read_heading_pfx cur with
    | some px =>
      let st' : AggState := { st with keywordsAllowed := true }
      updateHeading st' (tutorialHeading px cur) c
    | none =>
      match read_kwords_pfx cur with
      | some px =>
        if !st.keywordsAllowed then
          (st, c.addWarning
            ("Found keywords definition in file with no Tutorial line: '" ++
              cur ++ "'"))
        else updateKeywords st (tutorialKeywords px cur) c
      | none =>
        let st' : AggState := { st with keywordsAllowed := false }
        (st', (c.setHeading st'.heading).setKeywords
          (keywordsToString st'.keywordsSet))

/-! ### `assess_processing_result` and the orchestrator -/

/-- The four processing states of `assess_processing_result`, with their
payload. -/
inductive Verdict where
  | isError (msg : String)
  | isWarning (msg : String)
  | notDone
  | allDone
deriving DecidableEq

/-- `assess_processing_result(comment)`: error first, then warning, then
`current == None` means still scanning, otherwise the block is closed. -/
def assess_processing_result (c : Comment) : Verdict :=
  if c.error ≠ "" then .isError c.error
  else if c.warning ≠ "" then .isWarning c.warning
  else if c.current = none then .notDone
  else .allDone

/-- `display_metadata(comment)` as a function of the finalized heading and
keyword strings: on success, the pair of what is printed on stdout and the
warnings written on stderr; the `AssertionError` branch becomes `.error`. -/
def display_metadata (heading keywords : String) :
    Except String (String × List String) :=
  if heading ≠ "" ∧ keywords ≠ "" then
    .ok (heading ++ "\nKeywords: " ++ keywords ++ "\n", [])
  else if heading ≠ "" ∧ keywords = "" then
    .ok (heading ++ "\n", ["Warning: failed to find any tutorial keywords.\n"])
  else if heading = "" ∧ keywords ≠ "" then
    .error "Found keywords but no tutorial heading."
  else .ok ("", [])

/-- Outcome of the per-file `while True` loop of `process`. -/
inductive FileRes where
  | fileDone (c : Comment) (agg : AggState) (errs : List String)
  | fileError (msg : String) (errs : List String)
deriving DecidableEq

/-- The per-file `while True` loop of `process`, with explicit fuel (the
loop terminates on every finite file; the fuel `length + 1` is proved
sufficient below).  Warnings are written to stderr as they occur, formatted
by `handle_warning`. -/
def fileLoopF : Nat → String → AggState → ScanState → List String →
    List String → Option FileRes
  | 0, _, _, _, _, _ => none
  | fuel + 1, fn, agg, scanSt, ls, errs =>
    let r := scanLine scanSt ls
    let p := processCommentFn agg r.1
    match assess_processing_result p.2 with
    | .isError m => some (.fileError m errs)
    | .isWarning m =>
      fileLoopF fuel fn p.1 r.2.1 r.2.2
        (errs ++ ["Warning:" ++ fn ++ ":" ++ m ++ "\n"])
    | .notDone => fileLoopF fuel fn p.1 r.2.1 r.2.2 errs
    | .allDone => some (.fileDone p.2 p.1 errs)

/-- The observable outcome of a run of `process`: exit status, everything
printed on stdout, and the list of strings written to stderr. -/
structure RunOut where
  exitCode : Nat
  stdout : String
  stderr : List String
deriving DecidableEq

/-- The tail of `process` after the file loop: empty input is an error;
otherwise `display_metadata` runs under the `try`/`except AssertionError`. -/
def finishRun : Option Comment → List String → RunOut
  | none, errs => ⟨1, "", errs ++ ["AssertionError: input file names list empty.\n"]⟩
  | some c, errs =>
    match display_metadata c.heading c.keywords with
    | .ok r => ⟨0, r.1, errs ++ r.2⟩
    | .error e => ⟨1, "", errs ++ ["AssertionError: " ++ e ++ ".\n"]⟩

/-- The `for fn in fileNames` loop of `process`: one fresh scanner per file,
one shared aggregator; an error aborts the run with status 1 and nothing on
stdout (`handle_error` then "Processing aborted.").  The `none` fuel case is
unreachable (see the fuel-sufficiency theorem). -/
def processFiles : AggState → Option Comment → List String →
    List (String × List String) → RunOut
  | _, result, errs, [] => finishRun result errs
  | agg, _, errs, (fn, ls) :: rest =>
    match fileLoopF (ls.length + 1) fn agg initScan ls errs with
    | some (.fileDone c agg' errs') => processFiles agg' (some c) errs' rest
    | some (.fileError m errs') =>
      ⟨1, "", errs' ++ [fn ++ ":" ++ m ++ "\n", "Processing aborted.\n"]⟩
    | none => ⟨1, "", errs ++ ["insufficient fuel"]⟩

/-- `process(fileNames)` with each file given as its name and its list of
raw lines. -/
def runProgram (files : List (String × List String)) : RunOut :=
  processFiles initAgg none [] files

/-! ### Derived notions used by the statements -/

/-- The first line of a file that the scanner does not discard, after
`rstrip`.  A line is discarded exactly when it is an opening comment that is
a shebang (`#!/` at column 0) or whose cleaned text is empty (a purely
decorative border line).  An empty line or a non-comment line is kept (and
closes the block). -/
def firstKept : List String → Option String
  | [] => none
  | l :: rest =>
    let line := pyRstrip l
    if line = "" then some line
    else
      match is_comment line with
      | none => some line
      | some m =>
        if line.data.take 3 = ['#', '!', '/'] then firstKept rest
        else if commentTextChars line.data m.full (some m.mark) = [] then
          firstKept rest
        else some line

/-- A file is skippable when its first non-discarded line - if any - does
not match any of the six comment-opening patterns. -/
def fileSkippable (ls : List String) : Bool :=
  match firstKept ls with
  | none => true
  | some l => (is_comment l).isNone

/-- The aggregator state reached from the initial state after consuming a
given sequence of scanned comment records. -/
def aggReach (cs : List Comment) : AggState :=
  cs.foldl (fun a c => (processCommentFn a c).1) initAgg

end TutMeta

namespace TutMeta

/-! ### Sanity checks of the embedding on small inputs -/

example : normalise_text "  a   b  " = "a b" := rfl
example : split_on_commas "k1,   k2" = ["k1", "k2"] := rfl
example : split_on_commas " kw1, kw3" = ["kw1", "kw3"] := rfl
example : split_on_commas "a, ,b" = ["a", "b"] := rfl
example : keywordsToString ["kw4", "kw1", "kw3"] = "kw1, kw3, kw4" := rfl
example : pyCapitalize "tUTORIAL" = "Tutorial" := rfl
example : strLower "Tutorial #1: A" = "tutorial #1: a" := rfl
example : findsAtZero "tutorial 1: a b" "tutorial 1: a" = true := rfl
example : read_heading_pfx " Tutorial   #1: x" = some " Tutorial   " := rfl
example : read_heading_pfx "Tutorialx" = none := rfl
example : read_kwords_pfx "KWords : a" = some "KWords :" := rfl
example :
    scanLine initScan ["## Tutorial #1: summary tut.1"] =
      (⟨1, some "Tutorial #1: summary tut.1", "", "", "", ""⟩,
        ⟨1, some ['#', '#'], some ['#', '#']⟩, []) := rfl
example :
    (scanLine ⟨1, some ['#', '#'], some ['#', '#']⟩ ["# KWords: kw1, kw2"]).1 =
      ⟨2, some "", "", "", "", ""⟩ := rfl

/-! ### The claims -/

/-- C1: running the program on the two files of the main scenario of the
specification does NOT print the expected two lines
`Tutorial #1: summary tut.1` and `Keywords: kw1, kw2, kw3, kw4`.  The
keyword line of File 1 carries a single `#` while the file's opening mark is
`##`, and `secondary_comment_matcher("##")` demands the literal `##`, so the
line is treated as the end of the comment block: `kw1` and `kw2` are lost
and the program prints `Keywords: kw1, kw3, kw4`, contradicting both the
specification's scenario and the example in the program's own header
comment. -/
theorem c1_main_scenario_run :
    runProgram
        [("File1", ["## Tutorial #1: summary tut.1", "# KWords: kw1, kw2"]),
         ("File2", [" /* Tutorial #1: summary tut.1 *", "  * KWords: kw1, kw3  *",
                    "  * KWords: kw4  */"])] =
      ⟨0, "Tutorial #1: summary tut.1\nKeywords: kw1, kw3, kw4\n", []⟩ ∧
    (runProgram
        [("File1", ["## Tutorial #1: summary tut.1", "# KWords: kw1, kw2"]),
         ("File2", [" /* Tutorial #1: summary tut.1 *", "  * KWords: kw1, kw3  *",
                    "  * KWords: kw4  */"])]).stdout ≠
      "Tutorial #1: summary tut.1\nKeywords: kw1, kw2, kw3, kw4\n" := by
  constructor
  · decide
  · decide

set_option maxRecDepth 8192 in
/-- C4: the diagnostic messages do NOT carry a `Line <n>` part.
`Comment.__updateWarningOrError` stores the message as given (although the
docstrings of `addError` and `addWarning` promise a `Line #:` to be
prepended), and `handle_error`/`handle_warning` only prepend the file name.
On a run producing one warning and one fatal error, the strings written to
stderr are exactly `<file>:<message>` and `Warning:<file>:<message>`, and
the substring `Line` occurs in neither. -/
theorem c4_diagnostics_lack_line_numbers :
    runProgram
        [("f1", ["# KWords: a"]), ("f2", ["# Tutorial A: x"]),
         ("f3", ["# Tutorial B: y"])] =
      ⟨1, "",
        ["Warning:f1:Found keywords definition in file with no Tutorial line: 'KWords: a'\n",
         "f3:heading 'Tutorial B: y' different from previous files' heading 'Tutorial A: x'\n\n",
         "Processing aborted.\n"]⟩ ∧
    ¬ ("Line".data <:+:
        ("Warning:f1:Found keywords definition in file with no Tutorial line: 'KWords: a'\n").data) ∧
    ¬ ("Line".data <:+:
        ("f3:heading 'Tutorial B: y' different from previous files' heading 'Tutorial A: x'\n\n").data) := by
  refine ⟨by decide, by decide, by decide⟩

/-! ### Helper lemmas on prefixes, lengths and emptiness -/

theorem isPrefixOf_length_le : ∀ (a b : List Char),
    a.isPrefixOf b = true → a.length ≤ b.length
  | [], _, _ => Nat.zero_le _
  | _ :: _, [], h => by simp [List.isPrefixOf] at h
  | _ :: as, _ :: bs, h => by
    simp only [List.isPrefixOf, Bool.and_eq_true, beq_iff_eq] at h
    simpa using Nat.succ_le_succ (isPrefixOf_length_le as bs h.2)

theorem isPrefixOf_rfl : ∀ (a : List Char), a.isPrefixOf a = true
  | [] => rfl
  | _ :: as => by simp [List.isPrefixOf, isPrefixOf_rfl as]

theorem findsAtZero_length_le {x y : String} (h : findsAtZero x y = true) :
    y.length ≤ x.length :=
  isPrefixOf_length_le y.data x.data h

theorem strLower_length (s : String) : (strLower s).length = s.length := by
  show (s.data.map asciiLower).length = s.data.length
  simp

theorem str_length_append (a b : String) : (a ++ b).length = a.length + b.length := by
  show (a ++ b).data.length = a.data.length + b.data.length
  rw [String.data_append]
  exact List.length_append _ _

theorem heading_error_ne_empty (X Y : String) :
    ("heading '" ++ X ++ "' different from previous files' heading '" ++ Y ++
      "'\n") ≠ "" := by
  intro e
  have h := congrArg String.length e
  rw [str_length_append, str_length_append, str_length_append,
    str_length_append] at h
  have h1 : ("heading '" : String).length = 9 := rfl
  have h2 : ("" : String).length = 0 := rfl
  rw [h1, h2] at h
  omega

/-- C2: heading reconciliation with a case-insensitive strict prefix pair.
For normalised heading candidates `A` and `B` with `A` (lower-cased) a
prefix of the (strictly longer) `B`: feeding `updateHeading` the pair in
either order leaves the shorter `A` stored as the canonical heading, no step
signals an error, and a warning is signalled exactly on the second step of
the order in which `A` arrives after `B`. -/
theorem c2_shorter_compatible_heading (A B : String)
    (hA : normalise_text A = A) (hB : normalise_text B = B) (hAne : A ≠ "")
    (hpfx : findsAtZero (strLower B) (strLower A) = true)
    (hlen : A.length < B.length) :
    ((updateHeading initAgg A (Comment.init 1 "x")).2.error = "" ∧
     (updateHeading initAgg A (Comment.init 1 "x")).2.warning = "" ∧
     (updateHeading (updateHeading initAgg A (Comment.init 1 "x")).1 B
        (Comment.init 2 "y")).1.heading = A ∧
     (updateHeading (updateHeading initAgg A (Comment.init 1 "x")).1 B
        (Comment.init 2 "y")).2.error = "" ∧
     (updateHeading (updateHeading initAgg A (Comment.init 1 "x")).1 B
        (Comment.init 2 "y")).2.warning = "") ∧
    ((updateHeading initAgg B (Comment.init 1 "x")).2.error = "" ∧
     (updateHeading initAgg B (Comment.init 1 "x")).2.warning = "" ∧
     (updateHeading (updateHeading initAgg B (Comment.init 1 "x")).1 A
        (Comment.init 2 "y")).1.heading = A ∧
     (updateHeading (updateHeading initAgg B (Comment.init 1 "x")).1 A
        (Comment.init 2 "y")).2.error = "" ∧
     (updateHeading (updateHeading initAgg B (Comment.init 1 "x")).1 A
        (Comment.init 2 "y")).2.warning =
       "will use newly found, shorter heading '" ++ A ++ "'") := by
  have hBne : B ≠ "" := by
    intro e
    rw [e] at hlen
    have h0 : ("" : String).length = 0 := rfl
    rw [h0] at hlen
    omega
  have hAB : strLower A ≠ strLower B := by
    intro e
    have h := congrArg String.length e
    rw [strLower_length, strLower_length] at h
    omega
  have hBA : strLower B ≠ strLower A := fun e => hAB e.symm
  have h2 : findsAtZero (strLower A) (strLower B) = false := by
    cases hfb : findsAtZero (strLower A) (strLower B)
    · rfl
    · exfalso
      have h := findsAtZero_length_le hfb
      rw [strLower_length, strLower_length] at h
      omega
  constructor
  · refine ⟨rfl, rfl, ?_, ?_, ?_⟩ <;>
      simp [updateHeading, storeHeading, initAgg, hA, hAne, hAB, h2, hpfx,
        Comment.init, Comment.setCurrent, Comment.addWarning, Comment.addError]
  · refine ⟨rfl, rfl, ?_, ?_, ?_⟩ <;>
      simp [updateHeading, storeHeading, initAgg, hA, hB, hBne, hBA, hpfx,
        Comment.init, Comment.setCurrent, Comment.addWarning, Comment.addError]

/-- C2 witness at `A = "Tutorial 1: a"`, `B = "Tutorial 1: a b"`. -/
theorem c2_witness :
    (updateHeading (updateHeading initAgg "Tutorial 1: a b" (Comment.init 1 "x")).1
        "Tutorial 1: a" (Comment.init 2 "y")).1.heading = "Tutorial 1: a" ∧
    (updateHeading (updateHeading initAgg "Tutorial 1: a b" (Comment.init 1 "x")).1
        "Tutorial 1: a" (Comment.init 2 "y")).2.warning =
      "will use newly found, shorter heading '" ++ "Tutorial 1: a" ++ "'" ∧
    (updateHeading (updateHeading initAgg "Tutorial 1: a" (Comment.init 1 "x")).1
        "Tutorial 1: a b" (Comment.init 2 "y")).1.heading = "Tutorial 1: a" :=
  have h := c2_shorter_compatible_heading "Tutorial 1: a" "Tutorial 1: a b"
    (by decide) (by decide) (by decide) (by decide) (by decide)
  ⟨h.2.2.2.1, h.2.2.2.2.2, h.1.2.2.1⟩

/-- C3: heading reconciliation with no prefix relation either way.
For normalised non-empty candidates `A`, `B` with neither lower-cased form a
prefix of the other, feeding `updateHeading` the pair in either order logs a
fatal error whose message names both headings, and
`assess_processing_result` classifies the record as an error.  Moreover,
whenever the per-file loop reports an error on any file, the orchestrator
aborts: exit status 1, nothing on stdout, the error message and
"Processing aborted." on stderr. -/
theorem c3_irreconcilable_headings (A B : String)
    (hA : normalise_text A = A) (hB : normalise_text B = B)
    (hAne : A ≠ "") (hBne : B ≠ "")
    (h1 : findsAtZero (strLower B) (strLower A) = false)
    (h2 : findsAtZero (strLower A) (strLower B) = false) :
    ((updateHeading (updateHeading initAgg A (Comment.init 1 "x")).1 B
        (Comment.init 2 "y")).2.error =
      "heading '" ++ B ++ "' different from previous files' heading '" ++ A ++
        "'\n" ∧
     assess_processing_result
        (updateHeading (updateHeading initAgg A (Comment.init 1 "x")).1 B
          (Comment.init 2 "y")).2 =
      .isError ("heading '" ++ B ++ "' different from previous files' heading '"
        ++ A ++ "'\n")) ∧
    ((updateHeading (updateHeading initAgg B (Comment.init 1 "x")).1 A
        (Comment.init 2 "y")).2.error =
      "heading '" ++ A ++ "' different from previous files' heading '" ++ B ++
        "'\n") ∧
    (∀ (agg : AggState) (result : Option Comment) (errs : List String)
        (fn : String) (ls : List String) (rest : List (String × List String))
        (m : String) (errs' : List String),
      fileLoopF (ls.length + 1) fn agg initScan ls errs =
          some (.fileError m errs') →
      processFiles agg result errs ((fn, ls) :: rest) =
        ⟨1, "", errs' ++ [fn ++ ":" ++ m ++ "\n", "Processing aborted.\n"]⟩) := by
  have hAB : strLower A ≠ strLower B := by
    intro e
    have h' := h2
    simp only [findsAtZero] at h'
    rw [e, isPrefixOf_rfl] at h'
    exact absurd h' (by decide)
  have hBA : strLower B ≠ strLower A := fun e => hAB e.symm
  refine ⟨⟨?_, ?_⟩, ?_, ?_⟩
  · simp [updateHeading, storeHeading, initAgg, hA, hAne, hAB, h1, h2,
      Comment.init, Comment.setCurrent, Comment.addError]
  · have herr : (updateHeading (updateHeading initAgg A (Comment.init 1 "x")).1 B
        (Comment.init 2 "y")).2.error =
        "heading '" ++ B ++ "' different from previous files' heading '" ++ A ++
          "'\n" := by
      simp [updateHeading, storeHeading, initAgg, hA, hAne, hAB, h1, h2,
        Comment.init, Comment.setCurrent, Comment.addError]
    simp [assess_processing_result, herr, heading_error_ne_empty]
  · simp [updateHeading, storeHeading, initAgg, hB, hBne, hBA, h1, h2,
      Comment.init, Comment.setCurrent, Comment.addError]
  · intro agg result errs fn ls rest m errs' h
    simp [processFiles, h]

/-- C3 witness at `A = "Tutorial A: x"`, `B = "Tutorial B: y"`, with the
abort conjunct applied to the concrete one-file run that conflicts after
`A` is stored. -/
theorem c3_witness :
    (updateHeading (updateHeading initAgg "Tutorial A: x" (Comment.init 1 "x")).1
        "Tutorial B: y" (Comment.init 2 "y")).2.error =
      "heading '" ++ "Tutorial B: y" ++
        "' different from previous files' heading '" ++ "Tutorial A: x" ++
        "'\n" ∧
    processFiles ⟨"Tutorial A: x", "tutorial a: x", [], false⟩ none []
        [("f3", ["# Tutorial B: y"])] =
      ⟨1, "",
        [] ++ ["f3:" ++
          "heading 'Tutorial B: y' different from previous files' heading 'Tutorial A: x'\n"
          ++ "\n", "Processing aborted.\n"]⟩ :=
  have h := c3_irreconcilable_headings "Tutorial A: x" "Tutorial B: y"
    (by decide) (by decide) (by decide) (by decide) (by decide) (by decide)
  ⟨h.1.1,
    h.2.2 ⟨"Tutorial A: x", "tutorial a: x", [], false⟩ none [] "f3"
      ["# Tutorial B: y"] []
      "heading 'Tutorial B: y' different from previous files' heading 'Tutorial A: x'\n"
      [] (by decide)⟩

/-! ### Helper lemmas on the keyword set -/

theorem mem_foldl_insert (l : List String) :
    ∀ (s : List String) (x : String),
      x ∈ l.foldl (fun t k => t.insert k) s ↔ x ∈ s ∨ x ∈ l := by
  induction l with
  | nil => simp
  | cons k l ih =>
    intro s x
    simp only [List.foldl_cons, ih, List.mem_insert_iff, List.mem_cons]
    tauto

theorem insert_comm_perm (a b : String) (s : List String) :
    List.Perm ((s.insert a).insert b) ((s.insert b).insert a) := by
  by_cases hab : a = b
  · subst hab; exact List.Perm.refl _
  by_cases ha : a ∈ s <;> by_cases hb : b ∈ s
  · simp only [List.insert_of_mem ha, List.insert_of_mem hb]
    exact List.Perm.refl _
  · simp only [List.insert_of_mem ha, List.insert_of_not_mem hb,
      List.insert_of_mem (List.mem_cons_of_mem b ha)]
    exact List.Perm.refl _
  · simp only [List.insert_of_not_mem ha, List.insert_of_mem hb,
      List.insert_of_mem (List.mem_cons_of_mem a hb)]
    exact List.Perm.refl _
  · have hba : b ∉ a :: s := by
      intro hmem
      rcases List.mem_cons.mp hmem with e | e
      · exact hab e.symm
      · exact hb e
    have hax : a ∉ b :: s := by
      intro hmem
      rcases List.mem_cons.mp hmem with e | e
      · exact hab e
      · exact ha e
    rw [List.insert_of_not_mem ha, List.insert_of_not_mem hb,
      List.insert_of_not_mem hba, List.insert_of_not_mem hax]
    exact List.Perm.swap a b s

theorem foldl_insert_perm (l : List String) :
    ∀ {s s' : List String}, List.Perm s s' →
      List.Perm (l.foldl (fun t k => t.insert k) s)
        (l.foldl (fun t k => t.insert k) s') := by
  induction l with
  | nil => intro s s' p; simpa using p
  | cons k l ih =>
    intro s s' p
    simp only [List.foldl_cons]
    exact ih (p.insert k)

theorem foldl_insert_pull (l : List String) :
    ∀ (s : List String) (a : String),
      List.Perm (l.foldl (fun t k => t.insert k) (s.insert a))
        ((l.foldl (fun t k => t.insert k) s).insert a) := by
  induction l with
  | nil => intro s a; exact List.Perm.refl _
  | cons k l ih =>
    intro s a
    simp only [List.foldl_cons]
    exact List.Perm.trans (foldl_insert_perm l (insert_comm_perm a k s))
      (ih (s.insert k) a)

theorem foldl_insert_swap (la : List String) :
    ∀ (lb s : List String),
      List.Perm (lb.foldl (fun t k => t.insert k) (la.foldl (fun t k => t.insert k) s))
        (la.foldl (fun t k => t.insert k) (lb.foldl (fun t k => t.insert k) s)) := by
  induction la with
  | nil => intro lb s; exact List.Perm.refl _
  | cons a la ih =>
    intro lb s
    simp only [List.foldl_cons]
    exact List.Perm.trans (ih lb (s.insert a))
      (foldl_insert_perm la (foldl_insert_pull lb s a))

theorem keywordsToString_perm {s s' : List String} (p : List.Perm s s') :
    keywordsToString s = keywordsToString s' := by
  unfold keywordsToString
  congr 1
  exact List.eq_of_perm_of_sorted
    (((List.perm_insertionSort strLeRel s).trans p).trans
      (List.perm_insertionSort strLeRel s').symm)
    (List.sorted_insertionSort strLeRel s)
    (List.sorted_insertionSort strLeRel s')

theorem kwAdd_idem (s : List String) (x : String) :
    kwAdd (kwAdd s x) x = kwAdd s x := by
  have hgen : ∀ (l t : List String), (∀ k ∈ l, k ∈ t) →
      l.foldl (fun u k => u.insert k) t = t := by
    intro l
    induction l with
    | nil => intro t _; rfl
    | cons k l ih =>
      intro t h
      simp only [List.foldl_cons]
      rw [List.insert_of_mem (h k (by simp))]
      exact ih t (fun k' hk' => h k' (by simp [hk']))
  have hmem : ∀ k ∈ split_on_commas x, k ∈ kwAdd s x := by
    intro k hk
    unfold kwAdd
    exact (mem_foldl_insert _ _ _).mpr (Or.inr hk)
  show (split_on_commas x).foldl (fun u k => u.insert k) (kwAdd s x) = kwAdd s x
  exact hgen _ _ hmem

theorem splitCommaAux_skip_spaces : ∀ (n : Nat) (l : List Char),
    splitCommaAux true [] (List.replicate n ' ' ++ l) = splitCommaAux true [] l := by
  intro n
  induction n with
  | zero => intro l; rfl
  | succ n ih =>
    intro l
    simp only [List.replicate, List.cons_append, splitCommaAux]
    rw [if_pos (by decide)]
    exact ih l

theorem split_spaces_after_comma (n : Nat) :
    split_on_commas ("k1," ++ (⟨List.replicate n ' '⟩ : String) ++ "k2") =
      split_on_commas "k1, k2" := by
  unfold split_on_commas
  have hdata : ("k1," ++ (⟨List.replicate n ' '⟩ : String) ++ "k2").data =
      'k' :: '1' :: ',' :: (List.replicate n ' ' ++ "k2".data) := rfl
  rw [hdata]
  have hstep : splitCommaAux false []
      ('k' :: '1' :: ',' :: (List.replicate n ' ' ++ "k2".data)) =
      ['k', '1'] :: splitCommaAux true [] (List.replicate n ' ' ++ "k2".data) := rfl
  rw [hstep, splitCommaAux_skip_spaces]
  rfl

/-- C5: the accumulated keyword set is insensitive to the order of keyword
lines, to repetition, and to redundant whitespace.  Universally: two keyword
lines contribute the same rendered set in either order, and feeding the same
keyword string twice gives literally the same set as feeding it once; a run
of extra spaces after the comma of "k1, k2" changes nothing, nor does an
interior whitespace run inside a term; and the concrete pair "k1, k2" /
"k2, k3" renders as "k1, k2, k3" in both orders. -/
theorem c5_keyword_set_algebra :
    (∀ (s : List String) (x y : String),
      keywordsToString (kwAdd (kwAdd s x) y) =
        keywordsToString (kwAdd (kwAdd s y) x)) ∧
    (∀ (s : List String) (x : String), kwAdd (kwAdd s x) x = kwAdd s x) ∧
    (∀ (s : List String) (n : Nat),
      kwAdd s ("k1," ++ (⟨List.replicate n ' '⟩ : String) ++ "k2") =
        kwAdd s "k1, k2") ∧
    kwAdd [] "a   b, c" = kwAdd [] "a b, c" ∧
    keywordsToString (kwAdd (kwAdd [] "k1, k2") "k2, k3") = "k1, k2, k3" ∧
    keywordsToString (kwAdd (kwAdd [] "k2, k3") "k1, k2") = "k1, k2, k3" :=
  ⟨fun s x y =>
      keywordsToString_perm
        (foldl_insert_swap (split_on_commas x) (split_on_commas y) s),
    fun s x => kwAdd_idem s x,
    fun s n => by unfold kwAdd; rw [split_spaces_after_comma],
    by decide, by decide, by decide⟩

theorem kwords_warning_ne_empty (X : String) :
    ("Found keywords definition in file with no Tutorial line: '" ++ X ++ "'")
      ≠ "" := by
  intro e
  have h := congrArg String.length e
  rw [str_length_append, str_length_append] at h
  have h1 : 0 <
      ("Found keywords definition in file with no Tutorial line: '" : String).length := by
    decide
  have h2 : ("" : String).length = 0 := rfl
  rw [h2] at h
  omega

/-- C6: a keyword line consumed while the keywords-allowed gate is false
leaves the whole aggregator state unchanged (keyword set and gate included),
logs exactly one warning on the record, leaves the record's text in place,
and the verdict is the warning one - not a block-closing one - so the
orchestrator reports it and loops with a fresh line. -/
theorem c6_keywords_before_heading (st : AggState) (c : Comment) (s : String)
    (px : String) (hcur : c.current = some s) (herr : c.error = "")
    (hh : read_heading_pfx s = none) (hk : read_kwords_pfx s = some px)
    (hgate : st.keywordsAllowed = false) :
    processCommentFn st c =
      (st, c.addWarning
        ("Found keywords definition in file with no Tutorial line: '" ++ s ++ "'")) ∧
    (processCommentFn st c).2.current = some s ∧
    (processCommentFn st c).2.error = "" ∧
    assess_processing_result (processCommentFn st c).2 =
      .isWarning
        ("Found keywords definition in file with no Tutorial line: '" ++ s ++ "'") := by
  have h1 : processCommentFn st c =
      (st, c.addWarning
        ("Found keywords definition in file with no Tutorial line: '" ++ s ++ "'")) := by
    simp [processCommentFn, hcur, hh, hk, hgate]
  refine ⟨h1, ?_, ?_, ?_⟩
  · simp [h1, Comment.addWarning, hcur]
  · simp [h1, Comment.addWarning, herr]
  · simp [h1, Comment.addWarning, assess_processing_result, herr,
      kwords_warning_ne_empty s]

/-- C6 witness: a `KWords` line fed to the fresh aggregator. -/
theorem c6_witness :
    processCommentFn initAgg (Comment.init 3 "KWords: a") =
      (initAgg, (Comment.init 3 "KWords: a").addWarning
        ("Found keywords definition in file with no Tutorial line: '" ++
          "KWords: a" ++ "'")) :=
  (c6_keywords_before_heading initAgg (Comment.init 3 "KWords: a") "KWords: a"
    "KWords:" rfl rfl (by decide) (by decide) rfl).1

/-! ### The scanner on skippable files -/

theorem scanLine_skippable : ∀ (ls : List String) (st : ScanState),
    st.isSecondComment = none → fileSkippable ls = true →
    ∃ n, (scanLine st ls).1 = ⟨n, some "", "", "", "", ""⟩ := by
  intro ls
  induction ls with
  | nil =>
    intro st _ _
    exact ⟨st.lineNo + 1, rfl⟩
  | cons l rest ih =>
    intro st hsec hskip
    by_cases hline : pyRstrip l = ""
    · refine ⟨st.lineNo + 1, ?_⟩
      simp [scanLine, hline, Comment.init]
    · rcases hic : is_comment (pyRstrip l) with _ | m
      · refine ⟨st.lineNo + 1, ?_⟩
        simp [scanLine, hline, hsec, hic, Comment.init]
      · by_cases hsb : (pyRstrip l).data.take 3 = ['#', '!', '/']
        · have hskip' : fileSkippable rest = true := by
            simpa [fileSkippable, firstKept, hline, hic, hsb] using hskip
          obtain ⟨n, hn⟩ := ih { st with lineNo := st.lineNo + 1 }
            (by simpa using hsec) hskip'
          refine ⟨n, ?_⟩
          simpa [scanLine, hline, hsec, hic, hsb] using hn
        · by_cases htx : commentTextChars (pyRstrip l).data m.full (some m.mark) = []
          · have hskip' : fileSkippable rest = true := by
              simpa [fileSkippable, firstKept, hline, hic, hsb, htx] using hskip
            obtain ⟨n, hn⟩ := ih
              { st with lineNo := st.lineNo + 1, borderCommentMark := some m.mark }
              (by simpa using hsec) hskip'
            refine ⟨n, ?_⟩
            simpa [scanLine, hline, hsec, hic, hsb, htx] using hn
          · exfalso
            simp [fileSkippable, firstKept, hline, hic, hsb, htx] at hskip

/-- C7: a file whose first non-discarded line matches none of the six
comment-opening patterns contributes nothing: the per-file loop finishes at
once with no error and no warning, the closing record carries the previously
accumulated heading and keyword snapshot unchanged, the aggregator state
(including the keywords-allowed gate, false at every file boundary) is
exactly what it was, and nothing is added to stderr. -/
theorem c7_skipped_file_frame (agg : AggState) (fn : String) (ls : List String)
    (errs : List String) (hgate : agg.keywordsAllowed = false)
    (hskip : fileSkippable ls = true) :
    ∃ n, fileLoopF (ls.length + 1) fn agg initScan ls errs =
      some (.fileDone
        ⟨n, some "", "", "", agg.heading, keywordsToString agg.keywordsSet⟩
        agg errs) := by
  obtain ⟨n, hc⟩ := scanLine_skippable ls initScan rfl hskip
  refine ⟨n, ?_⟩
  have hagg : { agg with keywordsAllowed := false } = agg := by
    cases agg
    simp_all
  have hh : read_heading_pfx "" = none := rfl
  have hk : read_kwords_pfx "" = none := rfl
  simp only [fileLoopF, hc]
  simp [processCommentFn, hh, hk, assess_processing_result, Comment.setHeading,
    Comment.setKeywords, hagg]

/-- C7 witness: a C-source-like file whose first line is no comment opener,
processed against a non-trivial accumulated state. -/
theorem c7_witness :
    ∃ n, fileLoopF 2 "f9" ⟨"Tutorial 1: t", "tutorial 1: t", ["k"], false⟩
        initScan ["int main(void)"] ["w"] =
      some (.fileDone
        ⟨n, some "", "", "", "Tutorial 1: t",
          keywordsToString (["k"] : List String)⟩
        ⟨"Tutorial 1: t", "tutorial 1: t", ["k"], false⟩ ["w"]) :=
  c7_skipped_file_frame ⟨"Tutorial 1: t", "tutorial 1: t", ["k"], false⟩ "f9"
    ["int main(void)"] ["w"] rfl (by decide)

/-! ### Totality of the scanner -/

theorem scanLine_no_diagnostics : ∀ (ls : List String) (st : ScanState),
    (scanLine st ls).1.error = "" ∧ (scanLine st ls).1.warning = "" := by
  intro ls
  induction ls with
  | nil => intro st; exact ⟨rfl, rfl⟩
  | cons l rest ih =>
    intro st
    simp only [scanLine]
    repeat' split
    all_goals first
      | exact ⟨rfl, rfl⟩
      | exact ih _

/-- C8: the line scanner is total and never fails.  Every record it produces
has an empty error field and an empty warning field; end of file, a blank
line, and a line that does not match the established continuation rule all
produce a block-closing record whose comment text is the empty string. -/
theorem c8_scanner_never_fails :
    (∀ (ls : List String) (st : ScanState),
      (scanLine st ls).1.error = "" ∧ (scanLine st ls).1.warning = "") ∧
    (∀ st : ScanState, (scanLine st []).1.current = some "") ∧
    (∀ (st : ScanState) (l : String) (ls : List String), pyRstrip l = "" →
      (scanLine st (l :: ls)).1.current = some "") ∧
    (∀ (st : ScanState) (mk2 : List Char) (l : String) (ls : List String),
      st.isSecondComment = some mk2 → pyRstrip l ≠ "" →
      secondary_comment_matcher mk2 (pyRstrip l).data = none →
      (scanLine st (l :: ls)).1.current = some "") := by
  refine ⟨scanLine_no_diagnostics, fun st => rfl, ?_, ?_⟩
  · intro st l ls h
    simp [scanLine, h, Comment.init]
  · intro st mk2 l ls hsec hline hmatch
    simp [scanLine, hline, hsec, hmatch, Comment.init]

/-- C8 witness: the three closing cases at concrete inputs, through the
theorem. -/
theorem c8_witness :
    ((scanLine ⟨0, some ['#'], some ['#']⟩ ["* not a hash comment"]).1.error = ""
      ∧ (scanLine ⟨0, some ['#'], some ['#']⟩ ["* not a hash comment"]).1.warning
        = "") ∧
    (scanLine initScan []).1.current = some "" ∧
    (scanLine initScan ["   "]).1.current = some "" ∧
    (scanLine ⟨0, some ['#'], some ['#']⟩ ["* not a hash comment"]).1.current =
      some "" :=
  ⟨c8_scanner_never_fails.1 ["* not a hash comment"] ⟨0, some ['#'], some ['#']⟩,
    c8_scanner_never_fails.2.1 initScan,
    c8_scanner_never_fails.2.2.1 initScan "   " [] (by decide),
    c8_scanner_never_fails.2.2.2 ⟨0, some ['#'], some ['#']⟩ ['#']
      "* not a hash comment" [] rfl (by decide) (by decide)⟩

/-! ### Termination of the scan and of the per-file loop -/

theorem scanLine_consumes : ∀ (rest : List String) (l : String) (st : ScanState),
    ((scanLine st (l :: rest)).2.2).length ≤ rest.length := by
  intro rest
  induction rest with
  | nil =>
    intro l st
    by_cases hline : pyRstrip l = ""
    · simp [scanLine, hline]
    · rcases hsec : st.isSecondComment with _ | mk2
      · rcases hic : is_comment (pyRstrip l) with _ | m
        · simp [scanLine, hline, hsec, hic]
        · by_cases hsb : (pyRstrip l).data.take 3 = ['#', '!', '/']
          · simp [scanLine, hline, hsec, hic, hsb]
          · by_cases htx :
                commentTextChars (pyRstrip l).data m.full (some m.mark) = []
            · simp [scanLine, hline, hsec, hic, hsb, htx]
            · simp [scanLine, hline, hsec, hic, hsb, htx]
      · rcases hsm : secondary_comment_matcher mk2 (pyRstrip l).data with _ | full
        · simp [scanLine, hline, hsec, hsm]
        · by_cases htx :
              commentTextChars (pyRstrip l).data full st.borderCommentMark = []
          · simp [scanLine, hline, hsec, hsm, htx]
          · simp [scanLine, hline, hsec, hsm, htx]
  | cons r' rest' ih =>
    intro l st
    by_cases hline : pyRstrip l = ""
    · simp [scanLine, hline]
    · rcases hsec : st.isSecondComment with _ | mk2
      · rcases hic : is_comment (pyRstrip l) with _ | m
        · simp [scanLine, hline, hsec, hic]
        · by_cases hsb : (pyRstrip l).data.take 3 = ['#', '!', '/']
          · have ihx := ih r' ⟨st.lineNo + 1, none, st.borderCommentMark⟩
            simp only [scanLine] at ihx
            simp only [scanLine, hline, hsec, hic, hsb, if_pos, if_neg]
            simp only [hline, hic, hsb, reduceIte]
            exact le_trans ihx (Nat.le_succ _)
          · by_cases htx :
                commentTextChars (pyRstrip l).data m.full (some m.mark) = []
            · have ihx := ih r' ⟨st.lineNo + 1, none, some m.mark⟩
              simp only [scanLine] at ihx
              simp only [scanLine, hline, hsec, hic, hsb, htx, reduceIte]
              exact le_trans ihx (Nat.le_succ _)
            · simp [scanLine, hline, hsec, hic, hsb, htx]
      · rcases hsm : secondary_comment_matcher mk2 (pyRstrip l).data with _ | full
        · simp [scanLine, hline, hsec, hsm]
        · by_cases htx :
              commentTextChars (pyRstrip l).data full st.borderCommentMark = []
          · have ihx := ih r' ⟨st.lineNo + 1, some mk2, st.borderCommentMark⟩
            simp only [scanLine] at ihx
            simp only [scanLine, hline, hsec, hsm, htx, reduceIte]
            exact le_trans ihx (Nat.le_succ _)
          · simp [scanLine, hline, hsec, hsm, htx]

theorem fileLoopF_total : ∀ (fuel : Nat) (ls : List String), ls.length < fuel →
    ∀ (fn : String) (agg : AggState) (scanSt : ScanState) (errs : List String),
      (fileLoopF fuel fn agg scanSt ls errs).isSome = true := by
  intro fuel
  induction fuel with
  | zero =>
    intro ls h
    omega
  | succ fuel ih =>
    intro ls h fn agg scanSt errs
    have hh : read_heading_pfx "" = none := rfl
    have hk : read_kwords_pfx "" = none := rfl
    cases ls with
    | nil =>
      simp [fileLoopF, scanLine, processCommentFn, hh, hk,
        assess_processing_result, Comment.init, Comment.setHeading,
        Comment.setKeywords]
    | cons l rest =>
      have hcons := scanLine_consumes rest l scanSt
      have hlt : ((scanLine scanSt (l :: rest)).2.2).length < fuel := by
        simp only [List.length_cons] at h
        omega
      simp only [fileLoopF]
      split
      · simp
      · exact ih _ hlt _ _ _ _
      · exact ih _ hlt _ _ _ _
      · simp

/-- C10: processing terminates on every finite input.  The scanner consumes
at least one raw line whenever one is available and, at end of file, returns
a block-closing empty-text record without consuming anything; consequently
the per-file loop of the orchestrator finishes within `length + 1`
iterations: with any fuel exceeding the number of remaining lines,
`fileLoopF` returns a result. -/
theorem c10_processing_terminates :
    (∀ (rest : List String) (l : String) (st : ScanState),
      ((scanLine st (l :: rest)).2.2).length ≤ rest.length) ∧
    (∀ st : ScanState,
      (scanLine st []).2.2 = [] ∧ (scanLine st []).1.current = some "") ∧
    (∀ (fuel : Nat) (ls : List String), ls.length < fuel →
      ∀ (fn : String) (agg : AggState) (scanSt : ScanState) (errs : List String),
        (fileLoopF fuel fn agg scanSt ls errs).isSome = true) :=
  ⟨scanLine_consumes, fun _ => ⟨rfl, rfl⟩, fileLoopF_total⟩

/-! ### The keywords-imply-heading invariant -/

theorem string_data_mk (l : List Char) : (⟨l⟩ : String).data = l := rfl

theorem mem_data_append_left {a : Char} {s : String} (t : String)
    (h : a ∈ s.data) : a ∈ (s ++ t).data := by
  rw [String.data_append]
  exact List.mem_append_left _ h

theorem not_space_of_asciiLower_t : ∀ c : Char, asciiLower c = 't' →
    pyIsSpace c = false := by
  intro c h
  revert h
  unfold asciiLower
  split <;> intro h
  all_goals first | rfl | (subst h; rfl)

theorem pyIsSpace_asciiUpper : ∀ c : Char, pyIsSpace c = false →
    pyIsSpace (asciiUpper c) = false := by
  intro c h
  revert h
  unfold asciiUpper
  split <;> intro h
  all_goals first | rfl | exact h

theorem dropWhile_head_false (p : Char → Bool) : ∀ (l : List Char) (c : Char)
    (r : List Char), l.dropWhile p = c :: r → p c = false
  | [], c, r, h => by simp at h
  | a :: l, c, r, h => by
    rw [List.dropWhile_cons] at h
    by_cases ha : p a
    · rw [if_pos ha] at h
      exact dropWhile_head_false p l c r h
    · rw [if_neg ha] at h
      cases h
      simpa using ha

theorem strip_ne_nil {l : List Char} (h : ∃ c ∈ l, pyIsSpace c = false) :
    pyStripChars l ≠ [] := by
  intro e
  unfold pyStripChars at e
  rw [List.rdropWhile_eq_nil_iff] at e
  obtain ⟨c, hc, hcs⟩ := h
  have hsplit := List.takeWhile_append_dropWhile (p := pyIsSpace) (l := l)
  rw [← hsplit] at hc
  rcases List.mem_append.mp hc with hm | hm
  · exact absurd (List.mem_takeWhile_imp hm) (by simp [hcs])
  · exact absurd (e c hm) (by simp [hcs])

theorem strip_head_not_space {l : List Char} {c : Char} {r : List Char}
    (h : pyStripChars l = c :: r) : pyIsSpace c = false := by
  unfold pyStripChars at h
  have hpfx := List.rdropWhile_prefix pyIsSpace (l.dropWhile pyIsSpace)
  rw [h] at hpfx
  obtain ⟨t, ht⟩ := hpfx
  exact dropWhile_head_false pyIsSpace l c (r ++ t)
    (by rw [← ht]; exact List.cons_append c r t)

theorem collapseAux_false_ne_nil (c : Char) (r : List Char) :
    collapseAux false (c :: r) ≠ [] := by
  unfold collapseAux
  by_cases h : pyIsSpace c <;> simp [h]

theorem collapseAux_false_head {c : Char} (h : pyIsSpace c = false)
    (r : List Char) : collapseAux false (c :: r) = c :: collapseAux false r := by
  conv_lhs => unfold collapseAux
  simp [h]

theorem normaliseChars_head {l : List Char} (h : ∃ c ∈ l, pyIsSpace c = false) :
    ∃ c r, normaliseChars l = c :: r ∧ pyIsSpace c = false := by
  unfold normaliseChars
  rcases hs : pyStripChars l with _ | ⟨c, r⟩
  · exact absurd hs (strip_ne_nil h)
  · have hc := strip_head_not_space hs
    exact ⟨c, collapseAux false r, collapseAux_false_head hc r, hc⟩

theorem normaliseChars_ne_nil {l : List Char} (h : ∃ c ∈ l, pyIsSpace c = false) :
    normaliseChars l ≠ [] := by
  obtain ⟨c, r, he, _⟩ := normaliseChars_head h
  rw [he]
  exact List.cons_ne_nil c r

theorem read_heading_pfx_has_nonspace {s px : String}
    (h : read_heading_pfx s = some px) : ∃ c ∈ px.data, pyIsSpace c = false := by
  simp only [read_heading_pfx] at h
  split at h
  · split at h
    · exact absurd h (by simp)
    · rename_i hlw hw2
      have hmap : (List.take 8 (s.data.dropWhile pyIsSpace)).map asciiLower =
          "tutorial".data := by
        simpa [lowersTo] using hlw
      injection h with h
      subst h
      rcases hw : List.take 8 (s.data.dropWhile pyIsSpace) with _ | ⟨c, w'⟩
      · rw [hw] at hmap
        exact absurd hmap (by decide)
      · rw [hw] at hmap
        simp only [List.map_cons] at hmap
        injection hmap with hc _
        refine ⟨c, ?_, not_space_of_asciiLower_t c hc⟩
        rw [string_data_mk]
        exact List.mem_append_left _
          (List.mem_append_right _ (List.mem_cons_self c w'))
  · exact absurd h (by simp)

theorem heading_cand_ne_empty {s px : String}
    (h : read_heading_pfx s = some px) :
    normalise_text (tutorialHeading px s) ≠ "" := by
  obtain ⟨c0, r0, hn, hc0⟩ := normaliseChars_head (read_heading_pfx_has_nonspace h)
  have hcap : (pyCapitalize (normalise_text px)).data =
      asciiUpper c0 :: r0.map asciiLower := by
    simp only [pyCapitalize, normalise_text, string_data_mk, hn]
  have hmem : asciiUpper c0 ∈ (tutorialHeading px s).data := by
    unfold tutorialHeading
    exact mem_data_append_left _
      (mem_data_append_left _ (by rw [hcap]; exact List.mem_cons_self _ _))
  intro e
  exact normaliseChars_ne_nil ⟨asciiUpper c0, hmem, pyIsSpace_asciiUpper c0 hc0⟩
    (congrArg String.data e)

theorem updateHeading_result_ne {st : AggState} {cand : String} (c : Comment)
    (hcand : normalise_text cand ≠ "") :
    (updateHeading st cand c).1.heading ≠ "" := by
  simp only [updateHeading]
  split
  · simpa [storeHeading] using hcand
  · rename_i h0
    split
    · simpa using h0
    · split
      · simpa [storeHeading] using hcand
      · split
        · simpa using h0
        · simpa using h0

theorem processCommentFn_inv {st : AggState} (c : Comment)
    (h1 : st.keywordsAllowed = true → st.heading ≠ "")
    (h2 : st.keywordsSet ≠ [] → st.heading ≠ "") :
    ((processCommentFn st c).1.keywordsAllowed = true →
      (processCommentFn st c).1.heading ≠ "") ∧
    ((processCommentFn st c).1.keywordsSet ≠ [] →
      (processCommentFn st c).1.heading ≠ "") := by
  unfold processCommentFn
  split
  · exact ⟨h1, h2⟩
  · split
    · rename_i cur px hpx
      constructor
      · intro _
        exact updateHeading_result_ne _ (heading_cand_ne_empty hpx)
      · intro _
        exact updateHeading_result_ne _ (heading_cand_ne_empty hpx)
    · split
      · split
        · exact ⟨h1, h2⟩
        · rename_i hg
          have hgate : st.keywordsAllowed = true := by
            simpa using hg
          unfold updateKeywords
          exact ⟨fun _ => h1 hgate, fun _ => h1 hgate⟩
      · constructor
        · intro hf
          simp at hf
        · intro hs
          have hset : st.keywordsSet ≠ [] := by simpa using hs
          simpa using h2 hset

theorem aggReach_inv (cs : List Comment) :
    ((aggReach cs).keywordsAllowed = true → (aggReach cs).heading ≠ "") ∧
    ((aggReach cs).keywordsSet ≠ [] → (aggReach cs).heading ≠ "") := by
  have hgen : ∀ (l : List Comment) (st : AggState),
      (st.keywordsAllowed = true → st.heading ≠ "") →
      (st.keywordsSet ≠ [] → st.heading ≠ "") →
      (((l.foldl (fun a c => (processCommentFn a c).1) st).keywordsAllowed = true →
        (l.foldl (fun a c => (processCommentFn a c).1) st).heading ≠ "") ∧
       ((l.foldl (fun a c => (processCommentFn a c).1) st).keywordsSet ≠ [] →
        (l.foldl (fun a c => (processCommentFn a c).1) st).heading ≠ "")) := by
    intro l
    induction l with
    | nil => intro st g1 g2; exact ⟨g1, g2⟩
    | cons c l ih =>
      intro st g1 g2
      simp only [List.foldl_cons]
      obtain ⟨k1, k2⟩ := processCommentFn_inv c g1 g2
      exact ih _ k1 k2
  exact hgen cs initAgg (by intro h; cases h) (fun h => absurd rfl h)

theorem keywordsToString_ne_imp {s : List String} (h : keywordsToString s ≠ "") :
    s ≠ [] := by
  intro e
  subst e
  exact h rfl

/-- C9: in every reachable aggregator state, a non-empty keyword set implies
a non-empty stored canonical heading, so in every finalized snapshot
non-empty finalized keywords imply a non-empty finalized heading, and the
`AssertionError` branch of `display_metadata` ("Found keywords but no
tutorial heading") can never be taken on such a snapshot. -/
theorem c9_keywords_imply_heading (cs : List Comment) :
    ((aggReach cs).keywordsSet ≠ [] → (aggReach cs).heading ≠ "") ∧
    (keywordsToString (aggReach cs).keywordsSet ≠ "" →
      (aggReach cs).heading ≠ "") ∧
    (∀ e, display_metadata (aggReach cs).heading
        (keywordsToString (aggReach cs).keywordsSet) ≠ Except.error e) := by
  obtain ⟨_, h2⟩ := aggReach_inv cs
  refine ⟨h2, fun hr => h2 (keywordsToString_ne_imp hr), ?_⟩
  intro e he
  unfold display_metadata at he
  split at he
  · exact absurd he (by simp)
  · split at he
    · exact absurd he (by simp)
    · split at he
      · rename_i hcnd
        exact absurd hcnd.1 (h2 (keywordsToString_ne_imp hcnd.2))
      · exact absurd he (by simp)

/-- C9 witness: after a heading and a keyword line, the reached state has
keywords, hence a non-empty heading. -/
theorem c9_witness :
    (aggReach [Comment.init 1 "Tutorial 1: x", Comment.init 2 "KWords: a"]).heading
      ≠ "" :=
  (c9_keywords_imply_heading
    [Comment.init 1 "Tutorial 1: x", Comment.init 2 "KWords: a"]).1 (by decide)

/-- C10 witness: the loop yields a result on a two-line file with fuel 3. -/
theorem c10_witness :
    (fileLoopF 3 "f" initAgg initScan ["# Tutorial 1: t", "# KWords: a"]
      []).isSome = true ∧
    ((scanLine initScan ["# Tutorial 1: t"]).2.2).length ≤ 0 :=
  ⟨c10_processing_terminates.2.2 3 ["# Tutorial 1: t", "# KWords: a"]
      (by decide) "f" initAgg initScan [],
    c10_processing_terminates.1 [] "# Tutorial 1: t" initScan⟩

end TutMeta
